import Mathlib

/-
Verification of the mock-server request-validation pipeline and resource store
(shallow embedding of src/handler.go, src/unnamed/part_000 (store), src/router.go).

Go dynamic values decoded from JSON are modelled by `GoVal`; Go maps
(map[string]any, map[string]*SchemaRef, ...) are modelled by association
lists whose observable behaviour is key lookup (Go map iteration order is
irrelevant to every result proved here because all merged maps have
pairwise-distinct keys and all folds are commutative in the lookups used).
-/

namespace MockServer

/-- A Go `any` value as produced by `encoding/json` unmarshalling plus the
one non-JSON value the handler itself stores: `gInt` models a Go `int`
(the handler writes `body["id"] = len(list)+1`, an `int`), while `gFloat`
models `float64`, the type `encoding/json` gives every JSON number.
The distinction is observable: the handler's type assertion
`item["id"].(float64)` panics on a `gInt`. Floats are modelled as `Rat`. -/
inductive GoVal where
  | gNull
  | gBool (b : Bool)
  | gInt (n : Int)
  | gFloat (q : Rat)
  | gStr (s : String)
  | gArr (xs : List GoVal)
  | gMap (m : List (String × GoVal))

/-- First-occurrence lookup in an association list (models Go map indexing;
the lists we build always have pairwise-distinct keys). -/
def mapGet {α : Type} : List (String × α) → String → Option α
  | [], _ => none
  | kv :: rest, k => if kv.1 = k then some kv.2 else mapGet rest k

/-- Go map assignment `m[k] = v`: overwrite the binding if the key is
present, otherwise add it. -/
def mapSet {α : Type} : List (String × α) → String → α → List (String × α)
  | [], k, v => [(k, v)]
  | kv :: rest, k, v => if kv.1 = k then (k, v) :: rest else kv :: mapSet rest k v

/-- Conditional Go map assignment used by the oneOf/anyOf merge:
`if _, exists := props[k]; !exists { props[k] = v }`. -/
def setIfAbsent {α : Type} (m : List (String × α)) (k : String) (v : α) : List (String × α) :=
  if (mapGet m k).isSome then m else m ++ [(k, v)]

/-- An `openapi3.Schema` node restricted to the fields the handler reads
(handler.go: collectSchemaConstraints, checkType). `nilSchema` models a nil
`*openapi3.Schema` (a nil ref or nil ref.Value); the Go code skips such
entries wherever they can occur. Field order: Type, Nullable, MinLength,
MaxLength (a nil-able pointer), Enum, MinItems, Required, Properties,
AllOf, OneOf, AnyOf. -/
inductive GoSchema where
  | nilSchema
  | node (type_ : String) (nullable : Bool) (minLength : Nat) (maxLength : Option Nat)
      (enum : List GoVal) (minItems : Nat) (required : List String)
      (properties : List (String × GoSchema))
      (allOf oneOf anyOf : List GoSchema)

/-- The schema's own properties: `for name, ref := range schema.Properties`,
keeping only non-nil refs with non-nil values (handler.go lines 341-345). -/
def ownProps (props : List (String × GoSchema)) : List (String × GoSchema) :=
  props.foldl
    (fun acc kv =>
      match kv.2 with
      | .nilSchema => acc
      | s => mapSet acc kv.1 s)
    []

/-- The allOf merge step for properties: `for k, v := range p { props[k] = v }`
(handler.go lines 354-356): every binding of the branch overwrites. -/
def mergeOverwrite (base p : List (String × GoSchema)) : List (String × GoSchema) :=
  p.foldl (fun acc kv => mapSet acc kv.1 kv.2) base

/-- The oneOf/anyOf merge step for properties (handler.go lines 367-371,
378-382): a branch binding is added only when the key is not already
present (first-writer-wins). -/
def mergeIfAbsent (base p : List (String × GoSchema)) : List (String × GoSchema) :=
  p.foldl (fun acc kv => setIfAbsent acc kv.1 kv.2) base

mutual

/-- handler.go `collectSchemaConstraints` (lines 331-386): returns the
required-field list and merged property map of a schema node. Starts from
the node's own required list and properties, then walks allOf (appending
required, overwriting properties), then oneOf and anyOf (adding only
absent properties, never touching required). A nil schema yields both
empty. -/
def collectSchemaConstraints (s : GoSchema) : List String × List (String × GoSchema) :=
  match s with
  | .nilSchema => ([], [])
  | .node _ _ _ _ _ _ required properties allOf oneOf anyOf =>
    let acc := collAllOf allOf (required, ownProps properties)
    (acc.1, collOr anyOf (collOr oneOf acc.2))
termination_by sizeOf s

/-- The allOf loop of `collectSchemaConstraints` (handler.go lines 348-357):
each branch is resolved recursively; its required list is appended and its
properties overwrite the accumulator. Nil branches are skipped. -/
def collAllOf (l : List GoSchema) (acc : List String × List (String × GoSchema)) :
    List String × List (String × GoSchema) :=
  match l with
  | [] => acc
  | .nilSchema :: rest => collAllOf rest acc
  | .node t nb ml mx en mi req pr ao oo an :: rest =>
    let r := collectSchemaConstraints (.node t nb ml mx en mi req pr ao oo an)
    collAllOf rest (acc.1 ++ r.1, mergeOverwrite acc.2 r.2)
termination_by sizeOf l

/-- The oneOf / anyOf loop of `collectSchemaConstraints` (handler.go lines
362-383): only the branch's resolved properties are consulted, and only
keys absent from the accumulator are added. Nil branches are skipped. -/
def collOr (l : List GoSchema) (props : List (String × GoSchema)) :
    List (String × GoSchema) :=
  match l with
  | [] => props
  | .nilSchema :: rest => collOr rest props
  | .node t nb ml mx en mi req pr ao oo an :: rest =>
    collOr rest (mergeIfAbsent props
      (collectSchemaConstraints (.node t nb ml mx en mi req pr ao oo an)).2)
termination_by sizeOf l

end

/-- A model of Go `fmt.Sprintf("%v", e)` for decoded values, used only by the
enum comparison in checkType (handler.go line 412). Strings print raw,
booleans as true/false, integer-valued floats without a fractional part. -/
def goFmtV : GoVal → String
  | .gNull => "<nil>"
  | .gBool true => "true"
  | .gBool false => "false"
  | .gInt n => toString n
  | .gFloat q => if q.den = 1 then toString q.num else toString q
  | .gStr s => s
  | .gArr _ => "[...]"
  | .gMap _ => "map[...]"

/-- Go `len(s)` on a string counts UTF-8 bytes. -/
def goStrLen (s : String) : Nat := s.utf8ByteSize

/-- handler.go `checkType` (lines 389-439): validates one decoded value
against one property schema, returning the first violation message if any.
A nil value passes only when the schema is nullable; then the declared
type dispatches: string (with min/max length and enum), integer/number
(any float64), boolean, array (with minItems); other types get no check.
The nilSchema case cannot be reached from validateBody, which skips nil
property schemas. -/
def checkType (name : String) (val : GoVal) (prop : GoSchema) : Option String :=
  match prop with
  | .nilSchema => none
  | .node type_ nullable minLength maxLength enum minItems _ _ _ _ _ =>
    match val with
    | .gNull =>
      if nullable then none
      else some ("Property \"" ++ name ++ "\" must not be null")
    | v =>
      if type_ = "string" then
        match v with
        | .gStr s =>
          if minLength > 0 ∧ goStrLen s < minLength then
            some ("Property \"" ++ name ++ "\" must be at least " ++
              toString minLength ++ " characters")
          else if (match maxLength with
                   | some mx => decide (goStrLen s > mx)
                   | none => false) then
            some ("Property \"" ++ name ++ "\" must be at most " ++
              toString (maxLength.getD 0) ++ " characters")
          else if !enum.isEmpty then
            if enum.any (fun e => goFmtV e = s) then none
            else some ("Property \"" ++ name ++ "\" must be one of: [" ++
              String.intercalate " " (enum.map goFmtV) ++ "]")
          else none
        | _ => some ("Property \"" ++ name ++ "\" must be a string")
      else if type_ = "integer" ∨ type_ = "number" then
        match v with
        | .gFloat _ => none
        | _ => some ("Property \"" ++ name ++ "\" must be a number")
      else if type_ = "boolean" then
        match v with
        | .gBool _ => none
        | _ => some ("Property \"" ++ name ++ "\" must be a boolean")
      else if type_ = "array" then
        match v with
        | .gArr xs =>
          if minItems > 0 ∧ xs.length < minItems then
            some ("Property \"" ++ name ++ "\" must have at least " ++
              toString minItems ++ " items")
          else none
        | _ => some ("Property \"" ++ name ++ "\" must be an array")
      else none

/-- A decoded JSON object body (values are what `encoding/json` produces). -/
abbrev Record := List (String × GoVal)

/-- handler.go `validateBody` (lines 292-327). The initial
`json.Unmarshal` of the raw bytes is modelled by the `decoded` argument:
`.error e` is an unmarshal failure with message `e`. On success, required
fields are checked first (all missing ones collected), then every declared
property present in the body is checked with checkType; all violations are
returned together. -/
def validateBody (decoded : Except String Record) (schema : GoSchema) : List String :=
  match decoded with
  | .error e => ["Invalid JSON body: " ++ e]
  | .ok body =>
    let rp := collectSchemaConstraints schema
    let reqViol := rp.1.foldl
      (fun acc field =>
        if (mapGet body field).isSome then acc
        else acc ++ ["request.body Request body must have required property '" ++ field ++ "'"])
      []
    rp.2.foldl
      (fun acc np =>
        match mapGet body np.1 with
        | none => acc
        | some v =>
          match np.2 with
          | .nilSchema => acc
          | p =>
            match checkType np.1 v p with
            | some msg => acc ++ ["request.body " ++ msg]
            | none => acc)
      reqViol

/-- ASCII lower-casing of one character. -/
def lowerChar (c : Char) : Char :=
  if 'A' ≤ c ∧ c ≤ 'Z' then Char.ofNat (c.toNat + 32) else c

/-- ASCII lower-casing of a string (model of Go/HTTP case folding). -/
def asciiLower (s : String) : String := String.mk (s.data.map lowerChar)

/-- Go `strings.HasPrefix(s, pre)`. -/
def goStarts (s pre : String) : Bool := pre.data.isPrefixOf s.data

/-- The credential-bearing parts of an inbound request: headers (fiber's
`c.Get` looks names up case-insensitively), query parameters (`c.Query`)
and cookies (`c.Cookies`), each yielding the empty string when absent. -/
structure MockRequest where
  headers : List (String × String)
  query : List (String × String)
  cookies : List (String × String)

/-- fiber `c.Get(name)`: case-insensitive header lookup, empty string when
the header is absent. -/
def getHeader (r : MockRequest) (k : String) : String :=
  match r.headers.find? (fun p => asciiLower p.1 = asciiLower k) with
  | some p => p.2
  | none => ""

/-- fiber `c.Query(name)`: empty string when absent. -/
def getQuery (r : MockRequest) (k : String) : String :=
  match r.query.find? (fun p => p.1 = k) with
  | some p => p.2
  | none => ""

/-- fiber `c.Cookies(name)`: empty string when absent. -/
def getCookie (r : MockRequest) (k : String) : String :=
  match r.cookies.find? (fun p => p.1 = k) with
  | some p => p.2
  | none => ""

/-- An `openapi3.SecurityScheme` restricted to the fields isAuthenticated
reads: Type, Scheme (the http sub-kind), In and Name (the apiKey location
and field name). -/
structure SecurityScheme where
  stype : String
  sscheme : String
  sin : String
  sname : String

/-- Model of Go `strings.EqualFold` (ASCII-faithful case folding). -/
def eqFold (a b : String) : Bool := asciiLower a = asciiLower b

/-- One scheme's satisfaction check, the body of the per-scheme switch in
handler.go `isAuthenticated` (lines 239-274): http needs an Authorization
header, and when the sub-kind folds to "bearer" the value must begin with
the exact text "Bearer " or "bearer "; apiKey needs a non-empty value in
the declared location (unknown locations always fail); any other type
needs only a non-empty Authorization header. -/
def schemeSatisfied (r : MockRequest) (s : SecurityScheme) : Bool :=
  if s.stype = "http" then
    let auth := getHeader r "Authorization"
    if auth = "" then false
    else if eqFold s.sscheme "bearer" then
      goStarts auth "Bearer " || goStarts auth "bearer "
    else true
  else if s.stype = "apiKey" then
    if s.sin = "header" then getHeader r s.sname ≠ ""
    else if s.sin = "query" then getQuery r s.sname ≠ ""
    else if s.sin = "cookie" then getCookie r s.sname ≠ ""
    else false
  else getHeader r "Authorization" ≠ ""

/-- handler.go `isAuthenticated` (lines 219-286). `schemesOpt` models the
guard on lines 220-222: it is `none` when `openapiDoc`, its Components or
its SecuritySchemes map is nil (the function then returns false), and
otherwise holds the declared scheme map, whose entries may themselves be
nil refs (`some none`). A requirement alternative is a list of scheme
names (the scope lists are never read); an empty alternative succeeds
immediately, and otherwise every named scheme must resolve and be
satisfied. Alternatives are OR-ed. -/
def isAuthenticated (schemesOpt : Option (List (String × Option SecurityScheme)))
    (r : MockRequest) (reqs : List (List String)) : Bool :=
  match schemesOpt with
  | none => false
  | some schemes =>
    reqs.any (fun alt =>
      if alt.isEmpty then true
      else alt.all (fun n =>
        match mapGet schemes n with
        | some (some s) => schemeSatisfied r s
        | _ => false))

/-- Go `strconv.Atoi` accepts an optional sign followed by one or more
digits; this recognizer models its syntax check. -/
def isGoIntString (s : String) : Bool :=
  let core := match s.data with
    | '-' :: rest => rest
    | '+' :: rest => rest
    | l => l
  !core.isEmpty && core.all Char.isDigit

/-- The handler's `id, _ := strconv.Atoi(c.Params("id"))` (handler.go line
142): the error is discarded, so a syntax error yields 0, and a value out
of 64-bit range is clamped to the nearest bound (Atoi's range-error
result), in both cases still assigned to `id`. -/
def goAtoi (s : String) : Int :=
  if isGoIntString s then
    let core := match s.data with
      | '-' :: rest => rest
      | '+' :: rest => rest
      | l => l
    let mag : Nat := core.foldl (fun n c => n * 10 + (c.toNat - 48)) 0
    let v : Int := if goStarts s "-" then -(mag : Int) else (mag : Int)
    max (-(2 : Int) ^ 63) (min ((2 : Int) ^ 63 - 1) v)
  else 0

/-- Go `int(f)` on a float64 truncates toward zero. -/
def goTrunc (q : Rat) : Int := if q ≥ 0 then q.floor else q.ceil

/-- The id comparison `int(item["id"].(float64)) == id` performed on one
record (handler.go lines 148, 171, 188): `none` means the type assertion
panics, because the record has no "id" key (a nil interface) or its value
is not a float64 — in particular the Go `int` the POST branch stores. -/
def recordIdMatches (r : Record) (id : Int) : Option Bool :=
  match mapGet r "id" with
  | some (.gFloat q) => some (goTrunc q = id)
  | _ => none

/-- Result of the GET-by-id scan over the record list. -/
inductive FindResult where
  | foundRec (r : Record)
  | notFoundRec
  | panicRec

/-- The GET-by-id loop (handler.go lines 147-152). -/
def findById : List Record → Int → FindResult
  | [], _ => .notFoundRec
  | r :: rest, id =>
    match recordIdMatches r id with
    | some true => .foundRec r
    | some false => findById rest id
    | none => .panicRec

/-- Result of the PUT/PATCH scan: on success the updated list and the
updated record. -/
inductive UpdResult where
  | updOk (l : List Record) (r : Record)
  | updNotFound
  | updPanic

/-- The PUT/PATCH loop (handler.go lines 170-182): the first record whose
id matches is merged in place with the decoded body (`for k, v := range
body { item[k] = v }`, existing keys overwritten, new keys added). -/
def updateById : List Record → Int → Record → UpdResult
  | [], _, _ => .updNotFound
  | r :: rest, id, body =>
    match recordIdMatches r id with
    | some true =>
      let r' := body.foldl (fun acc kv => mapSet acc kv.1 kv.2) r
      .updOk (r' :: rest) r'
    | some false =>
      (match updateById rest id body with
       | .updOk l u => .updOk (r :: l) u
       | x => x)
    | none => .updPanic

/-- Result of the DELETE scan: on success the shortened list. -/
inductive DelResult where
  | delOk (l : List Record)
  | delNotFound
  | delPanic

/-- The DELETE loop (handler.go lines 187-193): the first record whose id
matches is removed (`append(list[:i], list[i+1:]...)`). -/
def deleteById : List Record → Int → DelResult
  | [], _ => .delNotFound
  | r :: rest, id =>
    match recordIdMatches r id with
    | some true => .delOk rest
    | some false =>
      (match deleteById rest id with
       | .delOk l => .delOk (r :: l)
       | x => x)
    | none => .delPanic

/-- `Store.Save` (src/unnamed/part_000 lines 23-28) begins with
`s.mu.Lock()`. A Go `sync.Mutex` is not reentrant, so when the calling
goroutine already holds `s.mu` the acquisition blocks forever and the
serialization and file write are never reached; only then does Save
return. This predicate states whether the call returns. -/
def storeSaveTerminates (callerHoldsMu : Bool) : Bool := !callerHoldsMu

/-- Observable outcome of one mock-response step (handler.go step 4). -/
inductive MockResult where
  | jsonItem (status : Nat) (r : Record)
  | jsonList (status : Nat) (l : List Record)
  | statusOnly (status : Nat)
  | errNotFound
  | errNotImplemented
  | panicked
  | deadlocked

/-- handler.go step 4 (lines 134-199), the mock response generator, for
one resource's record list. `body` is the result of `c.BodyParser` on the
request body (its error is discarded, so it may be empty); `idParam` is
`c.Params("id")`. The handler acquires `store.mu` on entry (line 134) and
holds it for the whole call, so every `saveStore` call runs with the lock
held: by `storeSaveTerminates` the call then blocks forever — `deadlocked`
— after the in-memory mutation (which precedes saveStore) has happened.
`panicked` records the `item["id"].(float64)` interface-conversion panic.
Returns the outcome and the resource's record list afterwards. -/
def handleMock (method idParam : String) (body : Record) (list : List Record) :
    MockResult × List Record :=
  let muHeld := true
  let id := goAtoi idParam
  if method = "GET" then
    if id > 0 then
      match findById list id with
      | .foundRec r => (.jsonItem 200 r, list)
      | .notFoundRec => (.errNotFound, list)
      | .panicRec => (.panicked, list)
    else (.jsonList 200 list, list)
  else if method = "POST" then
    let stored := mapSet body "id" (.gInt (Int.ofNat (list.length + 1)))
    let list' := list ++ [stored]
    if storeSaveTerminates muHeld then (.jsonItem 201 stored, list')
    else (.deadlocked, list')
  else if method = "PUT" ∨ method = "PATCH" then
    match updateById list id body with
    | .updOk l r =>
      if storeSaveTerminates muHeld then (.jsonItem 200 r, l) else (.deadlocked, l)
    | .updNotFound => (.errNotFound, list)
    | .updPanic => (.panicked, list)
  else if method = "DELETE" then
    match deleteById list id with
    | .delOk l =>
      if storeSaveTerminates muHeld then (.statusOnly 204, l) else (.deadlocked, l)
    | .delNotFound => (.errNotFound, list)
    | .delPanic => (.panicked, list)
  else (.errNotImplemented, list)

/-- One requested operation: method, id path parameter, decoded body. -/
abbrev MockOp := String × String × Record

/-- The record list of a resource after a sequence of handler calls,
threading the in-memory state (the store map entry) through `handleMock`. -/
def applyOps : List MockOp → List Record → List Record
  | [], l => l
  | op :: rest, l => applyOps rest (handleMock op.1 op.2.1 op.2.2 l).2

/-- Left-biased choice on options, the lookup semantics of layered maps. -/
def orOpt {α : Type} : Option α → Option α → Option α
  | some v, _ => some v
  | none, b => b

/-- First-writer-wins lookup across a list of oneOf/anyOf branches: the
first branch (nil branches skipped) whose resolved properties bind `k`
provides the binding. -/
def orLookup : List GoSchema → String → Option GoSchema
  | [], _ => none
  | .nilSchema :: rest, k => orLookup rest k
  | .node t nb ml mx en mi req pr ao oo an :: rest, k =>
    orOpt (mapGet (collectSchemaConstraints (.node t nb ml mx en mi req pr ao oo an)).2 k)
      (orLookup rest k)

/-- Concatenation of the resolved required lists of a list of allOf
branches, in branch order, nil branches skipped. -/
def allOfReqs : List GoSchema → List String
  | [] => []
  | .nilSchema :: rest => allOfReqs rest
  | .node t nb ml mx en mi req pr ao oo an :: rest =>
    (collectSchemaConstraints (.node t nb ml mx en mi req pr ao oo an)).1 ++ allOfReqs rest

/-- Whether some branch in a list of allOf branches resolves a property
named `k` (nil branches skipped). -/
def allOfHasKey : List GoSchema → String → Bool
  | [], _ => false
  | .nilSchema :: rest, k => allOfHasKey rest k
  | .node t nb ml mx en mi req pr ao oo an :: rest, k =>
    (mapGet (collectSchemaConstraints (.node t nb ml mx en mi req pr ao oo an)).2 k).isSome ||
      allOfHasKey rest k

/-- Modelled from the spec side of claim C8 only, for comparison with the
code: a case-insensitive prefix test ("starts with ... compared
case-insensitively"). The code's own test is the pair of `goStarts` calls
inside `schemeSatisfied`. -/
def ciStarts (s pre : String) : Bool := goStarts (asciiLower s) (asciiLower pre)

/-- The property schema of the C9 example: string with minLength 3. -/
def nameSchema : GoSchema := .node "string" false 3 none [] 0 [] [] [] [] []

/-- The body schema of the C9 example: requires exactly "name" and
declares it with `nameSchema`. -/
def requireNameSchema : GoSchema :=
  .node "object" false 0 none [] 0 ["name"] [("name", nameSchema)] [] [] []

/-- A schema whose own required list and whose single allOf branch both
require "name" (the C5 duplication scenario). -/
def dupRequiredBranch : GoSchema := .node "" false 0 none [] 0 ["name"] [] [] [] []

/-- See `dupRequiredBranch`. -/
def dupRequiredSchema : GoSchema :=
  .node "" false 0 none [] 0 ["name"] [] [dupRequiredBranch] [] []

/-- A concrete allOf branch requiring "b" and declaring property "p"
(used to instantiate the C6 union statement). -/
def unionBranch : GoSchema := .node "" false 0 none [] 0 ["b"] [("p", nameSchema)] [] [] []

/-- An integer-typed property schema (for the allOf overwrite scenario). -/
def intPropSchema : GoSchema := .node "integer" false 0 none [] 0 [] [] [] [] []

/-- First allOf branch: binds property "p" to `nameSchema`. -/
def overwriteBranch1 : GoSchema := .node "" false 0 none [] 0 [] [("p", nameSchema)] [] [] []

/-- Second allOf branch: binds the same property "p" to `intPropSchema`. -/
def overwriteBranch2 : GoSchema := .node "" false 0 none [] 0 [] [("p", intPropSchema)] [] [] []

/-- A schema whose two allOf branches bind the same property name to
different schemas (the C6 overwrite scenario). -/
def overwriteSchema : GoSchema :=
  .node "" false 0 none [] 0 [] [] [overwriteBranch1, overwriteBranch2] [] []

/-- Last-writer lookup across a list of allOf branches: the binding of
the LAST branch (nil branches skipped) whose resolved properties bind the
name — the allOf merge `props[k] = v` (handler.go lines 354-356) lets
every later branch overwrite earlier branches and the node's own
properties. -/
def allOfLast : List GoSchema → String → Option GoSchema
  | [], _ => none
  | .nilSchema :: rest, k => allOfLast rest k
  | .node t nb ml mx en mi req pr ao oo an :: rest, k =>
    orOpt (allOfLast rest k)
      (mapGet (collectSchemaConstraints (.node t nb ml mx en mi req pr ao oo an)).2 k)

/-- The id list of a resource's record list (the values compared for the
uniqueness invariant). -/
def idsOf (l : List Record) : List (Option GoVal) := l.map (fun r => mapGet r "id")

/-- The invariant maintained by the handler on every record list reachable
from the empty one: the ids are exactly the Go ints 1..n in order. -/
def goodState (l : List Record) : Prop :=
  idsOf l = (List.range l.length).map (fun k => some (GoVal.gInt (Int.ofNat (k + 1))))

lemma orOpt_none_right {α : Type} (a : Option α) : orOpt a none = a := by
  cases a <;> rfl

lemma orOpt_assoc {α : Type} (a b c : Option α) :
    orOpt (orOpt a b) c = orOpt a (orOpt b c) := by
  cases a <;> rfl

lemma orOpt_isSome {α : Type} (a b : Option α) :
    (orOpt a b).isSome = (a.isSome || b.isSome) := by
  cases a <;> rfl

lemma mapGet_mapSet {α : Type} (m : List (String × α)) (k k' : String) (v : α) :
    mapGet (mapSet m k v) k' = if k = k' then some v else mapGet m k' := by
  induction m with
  | nil => simp [mapGet, mapSet]
  | cons kv rest ih =>
    by_cases h1 : kv.1 = k
    · by_cases h2 : k = k'
      · simp [mapSet, mapGet, h1, h2]
      · have h3 : kv.1 ≠ k' := by rw [h1]; exact h2
        simp [mapSet, mapGet, h1, h2, h3]
    · by_cases h2 : kv.1 = k'
      · have h3 : k ≠ k' := fun hh => h1 (h2.trans hh.symm)
        have h4 : ¬k' = k := fun hh => h3 hh.symm
        simp [mapSet, mapGet, h1, h2, h3, h4]
      · simp [mapSet, mapGet, h1, h2, ih]

lemma mapGet_append {α : Type} (m1 m2 : List (String × α)) (k : String) :
    mapGet (m1 ++ m2) k = orOpt (mapGet m1 k) (mapGet m2 k) := by
  induction m1 with
  | nil => simp [mapGet, orOpt]
  | cons kv rest ih =>
    by_cases h : kv.1 = k <;> simp [mapGet, h, ih, orOpt]

lemma mapGet_setIfAbsent {α : Type} (m : List (String × α)) (k k' : String) (v : α) :
    mapGet (setIfAbsent m k v) k' =
      orOpt (mapGet m k') (if (mapGet m k).isSome then none
                           else if k = k' then some v else none) := by
  unfold setIfAbsent
  by_cases h : (mapGet m k).isSome
  · simp [h, orOpt_none_right]
  · by_cases h2 : k = k'
    · subst h2
      simp [h, mapGet_append, mapGet]
    · simp [h, h2, mapGet_append, mapGet, orOpt_none_right]

lemma mergeIfAbsent_get (p base : List (String × GoSchema)) (k : String) :
    mapGet (mergeIfAbsent base p) k = orOpt (mapGet base k) (mapGet p k) := by
  induction p generalizing base with
  | nil => simp [mergeIfAbsent, mapGet, orOpt_none_right]
  | cons kv rest ih =>
    have step : mergeIfAbsent base (kv :: rest) = mergeIfAbsent (setIfAbsent base kv.1 kv.2) rest := rfl
    rw [step, ih, mapGet_setIfAbsent]
    by_cases h : (mapGet base kv.1).isSome
    · by_cases h2 : kv.1 = k
      · subst h2
        obtain ⟨w, hw⟩ := Option.isSome_iff_exists.mp h
        simp [mapGet, hw, orOpt]
      · simp [mapGet, h2, orOpt_none_right]
    · by_cases h2 : kv.1 = k
      · subst h2
        have hn : mapGet base kv.1 = none := Option.not_isSome_iff_eq_none.mp h
        simp [mapGet, hn, orOpt, h]
      · simp [mapGet, h2, h, orOpt_none_right]

lemma mergeOverwrite_isSome (p base : List (String × GoSchema)) (k : String) :
    (mapGet (mergeOverwrite base p) k).isSome =
      ((mapGet base k).isSome || (mapGet p k).isSome) := by
  induction p generalizing base with
  | nil => simp [mergeOverwrite, mapGet]
  | cons kv rest ih =>
    have step : mergeOverwrite base (kv :: rest) = mergeOverwrite (mapSet base kv.1 kv.2) rest := rfl
    rw [step, ih, mapGet_mapSet]
    by_cases h2 : kv.1 = k <;> simp [mapGet, h2, Bool.or_assoc]

lemma collOr_get (l : List GoSchema) (props : List (String × GoSchema)) (k : String) :
    mapGet (collOr l props) k = orOpt (mapGet props k) (orLookup l k) := by
  induction l generalizing props with
  | nil => simp [collOr, orLookup, orOpt_none_right]
  | cons s rest ih =>
    cases s with
    | nilSchema => simpa [collOr, orLookup] using ih props
    | node t nb ml mx en mi req pr ao oo an =>
      rw [show collOr (GoSchema.node t nb ml mx en mi req pr ao oo an :: rest) props =
            collOr rest (mergeIfAbsent props
              (collectSchemaConstraints (GoSchema.node t nb ml mx en mi req pr ao oo an)).2)
          from by rw [collOr]]
      rw [ih, mergeIfAbsent_get, orOpt_assoc]
      rfl

lemma orLookup_append (l1 l2 : List GoSchema) (k : String) :
    orLookup (l1 ++ l2) k = orOpt (orLookup l1 k) (orLookup l2 k) := by
  induction l1 with
  | nil => simp [orLookup, orOpt]
  | cons s rest ih =>
    cases s with
    | nilSchema => simpa [orLookup] using ih
    | node t nb ml mx en mi req pr ao oo an => simp [orLookup, ih, orOpt_assoc]

lemma collAllOf_fst (l : List GoSchema) (acc : List String × List (String × GoSchema)) :
    (collAllOf l acc).1 = acc.1 ++ allOfReqs l := by
  induction l generalizing acc with
  | nil => simp [collAllOf, allOfReqs]
  | cons s rest ih =>
    cases s with
    | nilSchema => simpa [collAllOf, allOfReqs] using ih acc
    | node t nb ml mx en mi req pr ao oo an =>
      rw [show collAllOf (GoSchema.node t nb ml mx en mi req pr ao oo an :: rest) acc =
            collAllOf rest
              (acc.1 ++ (collectSchemaConstraints (GoSchema.node t nb ml mx en mi req pr ao oo an)).1,
               mergeOverwrite acc.2
                 (collectSchemaConstraints (GoSchema.node t nb ml mx en mi req pr ao oo an)).2)
          from by rw [collAllOf]]
      rw [ih]
      simp [allOfReqs]

lemma collAllOf_snd_isSome (l : List GoSchema) (acc : List String × List (String × GoSchema))
    (k : String) :
    (mapGet (collAllOf l acc).2 k).isSome = ((mapGet acc.2 k).isSome || allOfHasKey l k) := by
  induction l generalizing acc with
  | nil => simp [collAllOf, allOfHasKey]
  | cons s rest ih =>
    cases s with
    | nilSchema => simpa [collAllOf, allOfHasKey] using ih acc
    | node t nb ml mx en mi req pr ao oo an =>
      rw [show collAllOf (GoSchema.node t nb ml mx en mi req pr ao oo an :: rest) acc =
            collAllOf rest
              (acc.1 ++ (collectSchemaConstraints (GoSchema.node t nb ml mx en mi req pr ao oo an)).1,
               mergeOverwrite acc.2
                 (collectSchemaConstraints (GoSchema.node t nb ml mx en mi req pr ao oo an)).2)
          from by rw [collAllOf]]
      rw [ih]
      simp [allOfHasKey, mergeOverwrite_isSome, Bool.or_assoc]

lemma mapGet_eq_none_iff {α : Type} (m : List (String × α)) (k : String) :
    mapGet m k = none ↔ k ∉ m.map Prod.fst := by
  induction m with
  | nil => simp [mapGet]
  | cons kv rest ih =>
    by_cases h : kv.1 = k
    · simp [mapGet, h]
    · have h' : ¬k = kv.1 := fun hh => h hh.symm
      simp [mapGet, h, h', ih]

lemma mem_keys_mapSet {α : Type} (m : List (String × α)) (k k' : String) (v : α) :
    k' ∈ (mapSet m k v).map Prod.fst ↔ k' ∈ m.map Prod.fst ∨ k' = k := by
  induction m with
  | nil => simp [mapSet]
  | cons kv rest ih =>
    by_cases h : kv.1 = k
    · subst h
      simp [mapSet]
      tauto
    · simp [mapSet, h, ih]
      tauto

lemma mapSet_keys_nodup {α : Type} (m : List (String × α)) (k : String) (v : α)
    (h : (m.map Prod.fst).Nodup) : ((mapSet m k v).map Prod.fst).Nodup := by
  induction m with
  | nil => simp [mapSet]
  | cons kv rest ih =>
    rw [List.map_cons, List.nodup_cons] at h
    by_cases hk : kv.1 = k
    · subst hk
      simpa [mapSet, List.nodup_cons] using h
    · rw [show mapSet (kv :: rest) k v = kv :: mapSet rest k v from by simp [mapSet, hk]]
      rw [List.map_cons, List.nodup_cons]
      refine ⟨?_, ih h.2⟩
      rw [mem_keys_mapSet]
      rintro (hh | hh)
      · exact h.1 hh
      · exact hk hh

lemma setIfAbsent_keys_nodup {α : Type} (m : List (String × α)) (k : String) (v : α)
    (h : (m.map Prod.fst).Nodup) : ((setIfAbsent m k v).map Prod.fst).Nodup := by
  unfold setIfAbsent
  by_cases hs : (mapGet m k).isSome
  · simpa [hs] using h
  · have hk : k ∉ m.map Prod.fst :=
      (mapGet_eq_none_iff m k).mp (Option.not_isSome_iff_eq_none.mp hs)
    simp [hs, List.nodup_append, h, hk]

lemma mergeOverwrite_keys_nodup (p base : List (String × GoSchema))
    (h : (base.map Prod.fst).Nodup) : ((mergeOverwrite base p).map Prod.fst).Nodup := by
  induction p generalizing base with
  | nil => simpa [mergeOverwrite] using h
  | cons kv rest ih =>
    exact ih (mapSet base kv.1 kv.2) (mapSet_keys_nodup base kv.1 kv.2 h)

lemma mergeIfAbsent_keys_nodup (p base : List (String × GoSchema))
    (h : (base.map Prod.fst).Nodup) : ((mergeIfAbsent base p).map Prod.fst).Nodup := by
  induction p generalizing base with
  | nil => simpa [mergeIfAbsent] using h
  | cons kv rest ih =>
    exact ih (setIfAbsent base kv.1 kv.2) (setIfAbsent_keys_nodup base kv.1 kv.2 h)

lemma ownProps_go_keys_nodup (pr : List (String × GoSchema))
    (acc : List (String × GoSchema)) (h : (acc.map Prod.fst).Nodup) :
    ((pr.foldl
      (fun acc kv =>
        match kv.2 with
        | .nilSchema => acc
        | s => mapSet acc kv.1 s)
      acc).map Prod.fst).Nodup := by
  induction pr generalizing acc with
  | nil => simpa using h
  | cons kv rest ih =>
    rw [List.foldl_cons]
    cases hkv : kv.2 with
    | nilSchema => exact ih acc (by simpa [hkv] using h)
    | node t nb ml mx en mi req pr2 ao oo an =>
      have := mapSet_keys_nodup acc kv.1 (GoSchema.node t nb ml mx en mi req pr2 ao oo an) h
      exact ih _ (by simpa [hkv] using this)

lemma ownProps_keys_nodup (pr : List (String × GoSchema)) :
    ((ownProps pr).map Prod.fst).Nodup := by
  unfold ownProps
  exact ownProps_go_keys_nodup pr [] (by simp)

lemma collAllOf_keys_nodup (l : List GoSchema) (acc : List String × List (String × GoSchema))
    (h : (acc.2.map Prod.fst).Nodup) : (((collAllOf l acc).2).map Prod.fst).Nodup := by
  induction l generalizing acc with
  | nil => simpa [collAllOf] using h
  | cons s rest ih =>
    cases s with
    | nilSchema => simpa [collAllOf] using ih acc h
    | node t nb ml mx en mi req pr ao oo an =>
      rw [show collAllOf (GoSchema.node t nb ml mx en mi req pr ao oo an :: rest) acc =
            collAllOf rest
              (acc.1 ++ (collectSchemaConstraints (GoSchema.node t nb ml mx en mi req pr ao oo an)).1,
               mergeOverwrite acc.2
                 (collectSchemaConstraints (GoSchema.node t nb ml mx en mi req pr ao oo an)).2)
          from by rw [collAllOf]]
      exact ih _ (mergeOverwrite_keys_nodup _ _ h)

lemma collOr_keys_nodup (l : List GoSchema) (props : List (String × GoSchema))
    (h : (props.map Prod.fst).Nodup) : ((collOr l props).map Prod.fst).Nodup := by
  induction l generalizing props with
  | nil => simpa [collOr] using h
  | cons s rest ih =>
    cases s with
    | nilSchema => simpa [collOr] using ih props h
    | node t nb ml mx en mi req pr ao oo an =>
      rw [show collOr (GoSchema.node t nb ml mx en mi req pr ao oo an :: rest) props =
            collOr rest (mergeIfAbsent props
              (collectSchemaConstraints (GoSchema.node t nb ml mx en mi req pr ao oo an)).2)
          from by rw [collOr]]
      exact ih _ (mergeIfAbsent_keys_nodup _ _ h)

lemma coll_snd_keys_nodup (s : GoSchema) :
    (((collectSchemaConstraints s).2).map Prod.fst).Nodup := by
  cases s with
  | nilSchema => simp [collectSchemaConstraints]
  | node t nb ml mx en mi req pr ao oo an =>
    simp only [collectSchemaConstraints]
    exact collOr_keys_nodup _ _ (collOr_keys_nodup _ _
      (collAllOf_keys_nodup _ _ (by simpa using ownProps_keys_nodup pr)))

lemma mergeOverwrite_get (p base : List (String × GoSchema))
    (hp : (p.map Prod.fst).Nodup) (k : String) :
    mapGet (mergeOverwrite base p) k = orOpt (mapGet p k) (mapGet base k) := by
  induction p generalizing base with
  | nil => simp [mergeOverwrite, mapGet, orOpt]
  | cons kv rest ih =>
    rw [List.map_cons, List.nodup_cons] at hp
    have step : mergeOverwrite base (kv :: rest) = mergeOverwrite (mapSet base kv.1 kv.2) rest := rfl
    rw [step, ih _ hp.2, mapGet_mapSet]
    by_cases h : kv.1 = k
    · subst h
      have hrest : mapGet rest kv.1 = none := (mapGet_eq_none_iff _ _).mpr hp.1
      simp [mapGet, hrest, orOpt]
    · simp [mapGet, h]

lemma collAllOf_snd_get (l : List GoSchema) (acc : List String × List (String × GoSchema))
    (k : String) :
    mapGet (collAllOf l acc).2 k = orOpt (allOfLast l k) (mapGet acc.2 k) := by
  induction l generalizing acc with
  | nil => simp [collAllOf, allOfLast, orOpt]
  | cons s rest ih =>
    cases s with
    | nilSchema => simpa [collAllOf, allOfLast] using ih acc
    | node t nb ml mx en mi req pr ao oo an =>
      rw [show collAllOf (GoSchema.node t nb ml mx en mi req pr ao oo an :: rest) acc =
            collAllOf rest
              (acc.1 ++ (collectSchemaConstraints (GoSchema.node t nb ml mx en mi req pr ao oo an)).1,
               mergeOverwrite acc.2
                 (collectSchemaConstraints (GoSchema.node t nb ml mx en mi req pr ao oo an)).2)
          from by rw [collAllOf]]
      rw [ih]
      simp only [allOfLast]
      rw [mergeOverwrite_get _ _
        (coll_snd_keys_nodup (GoSchema.node t nb ml mx en mi req pr ao oo an)), ← orOpt_assoc]

lemma mem_allOfReqs {s : GoSchema} {l : List GoSchema} {x : String}
    (hs : s ∈ l) (hx : x ∈ (collectSchemaConstraints s).1) : x ∈ allOfReqs l := by
  induction l with
  | nil => cases hs
  | cons hd rest ih =>
    cases hs with
    | head =>
      cases s with
      | nilSchema => simp [collectSchemaConstraints] at hx
      | node t nb ml mx en mi req pr ao oo an =>
        simp only [allOfReqs, List.mem_append]
        exact Or.inl hx
    | tail _ hmem =>
      cases hd with
      | nilSchema => simpa [allOfReqs] using ih hmem
      | node t nb ml mx en mi req pr ao oo an =>
        simp only [allOfReqs, List.mem_append]
        exact Or.inr (ih hmem)

lemma hasKey_allOf {s : GoSchema} {l : List GoSchema} {k : String}
    (hs : s ∈ l) (hk : (mapGet (collectSchemaConstraints s).2 k).isSome = true) :
    allOfHasKey l k = true := by
  induction l with
  | nil => cases hs
  | cons hd rest ih =>
    cases hs with
    | head =>
      cases s with
      | nilSchema => simp [collectSchemaConstraints, mapGet] at hk
      | node t nb ml mx en mi req pr ao oo an => simp [allOfHasKey, hk]
    | tail _ hmem =>
      cases hd with
      | nilSchema => simpa [allOfHasKey] using ih hmem
      | node t nb ml mx en mi req pr ao oo an => simp [allOfHasKey, ih hmem]

/-- C4: for every schema node, the resolver never adds required fields
from one-of or any-of branches (the required list is exactly what the same
node with empty one-of/any-of lists yields, i.e. own required plus all-of
contributions only), and the property map is the layered first-writer-wins
lookup: an existing binding (own properties overlaid by all-of branches)
always wins, and otherwise the first one-of branch, then any-of branch,
that resolves the name provides the binding. -/
theorem oneOf_anyOf_never_required_first_writer_wins (t : String) (nb : Bool) (ml : Nat)
    (mx : Option Nat) (en : List GoVal) (mi : Nat) (req : List String)
    (pr : List (String × GoSchema)) (ao oo an : List GoSchema) :
    (collectSchemaConstraints (.node t nb ml mx en mi req pr ao oo an)).1 =
        (collectSchemaConstraints (.node t nb ml mx en mi req pr ao [] [])).1
      ∧ ∀ k, mapGet (collectSchemaConstraints (.node t nb ml mx en mi req pr ao oo an)).2 k =
          orOpt (mapGet (collectSchemaConstraints (.node t nb ml mx en mi req pr ao [] [])).2 k)
            (orLookup (oo ++ an) k) := by
  constructor
  · simp only [collectSchemaConstraints]
  · intro k
    simp only [collectSchemaConstraints, collOr]
    rw [collOr_get, collOr_get, orLookup_append, orOpt_assoc]

/-- C5 counterexample: a schema that itself requires "name" and has one
all-of branch also requiring "name" resolves to the required list
["name", "name"] — the resolver's output is not deduplicated by name. -/
theorem required_dedup_counterexample :
    (collectSchemaConstraints dupRequiredSchema).1 = ["name", "name"] ∧
    ¬ (collectSchemaConstraints dupRequiredSchema).1.Nodup := by
  have h : (collectSchemaConstraints dupRequiredSchema).1 = ["name", "name"] := by
    simp [dupRequiredSchema, dupRequiredBranch, collectSchemaConstraints, collAllOf, collOr,
      ownProps, mergeOverwrite, allOfReqs]
  exact ⟨h, by rw [h]; simp⟩

/-- C5 amended: the resolver's output required list is the concatenation
of the node's own required list with each all-of branch's resolved
required list in branch order, with no deduplication, so a field required
both by the node and by an all-of branch occurs twice. -/
theorem required_list_is_concat (t : String) (nb : Bool) (ml : Nat) (mx : Option Nat)
    (en : List GoVal) (mi : Nat) (req : List String) (pr : List (String × GoSchema))
    (ao oo an : List GoSchema) :
    (collectSchemaConstraints (.node t nb ml mx en mi req pr ao oo an)).1 =
      req ++ allOfReqs ao := by
  simp only [collectSchemaConstraints]
  exact collAllOf_fst ao _

/-- C6 counterexample: property inclusion is not entry-level. The schema
`overwriteSchema` has two allOf branches binding the same property name
"p": the first branch resolves it to `nameSchema`, but the allOf merge
`props[k] = v` lets the second branch overwrite, so the schema's resolved
properties bind "p" to `intPropSchema` — the first branch's (name,
schema) entry is lost, refuting "resolved properties include every all-of
branch's resolved properties (union, no loss)". -/
theorem allOf_overwrite_counterexample :
    mapGet (collectSchemaConstraints overwriteBranch1).2 "p" = some nameSchema
    ∧ mapGet (collectSchemaConstraints overwriteSchema).2 "p" = some intPropSchema
    ∧ nameSchema ≠ intPropSchema := by
  refine ⟨?_, ?_, ?_⟩
  · simp [overwriteBranch1, nameSchema, collectSchemaConstraints, collAllOf, collOr, ownProps,
      List.foldl, mapSet, mapGet]
  · simp [overwriteSchema, overwriteBranch1, overwriteBranch2, nameSchema, intPropSchema,
      collectSchemaConstraints, collAllOf, collOr, ownProps, mergeOverwrite, List.foldl,
      mapSet, mapGet]
  · intro h
    simp [nameSchema, intPropSchema] at h

/-- C6 amended: for every schema node with an all-of branch list, the
resolved required list contains the node's own required fields and every
all-of branch's resolved required fields (union, no loss), and the
resolved property map covers every NAME any all-of branch resolves — but
property inclusion is last-writer-wins, not entry-level: each name is
bound to the schema contributed by the last all-of branch that resolves
it, overwriting the node's own property and earlier branches' bindings,
with one-of/any-of branches filling only names still absent. -/
theorem allOf_union_last_writer_wins (t : String) (nb : Bool) (ml : Nat) (mx : Option Nat)
    (en : List GoVal) (mi : Nat) (req : List String) (pr : List (String × GoSchema))
    (ao oo an : List GoSchema) :
    (∀ x, x ∈ req → x ∈ (collectSchemaConstraints (.node t nb ml mx en mi req pr ao oo an)).1)
    ∧ (∀ s, s ∈ ao → ∀ x, x ∈ (collectSchemaConstraints s).1 →
        x ∈ (collectSchemaConstraints (.node t nb ml mx en mi req pr ao oo an)).1)
    ∧ (∀ s, s ∈ ao → ∀ k, (mapGet (collectSchemaConstraints s).2 k).isSome = true →
        (mapGet (collectSchemaConstraints (.node t nb ml mx en mi req pr ao oo an)).2 k).isSome
          = true)
    ∧ (∀ k, mapGet (collectSchemaConstraints (.node t nb ml mx en mi req pr ao oo an)).2 k =
        orOpt (orOpt (allOfLast ao k) (mapGet (ownProps pr) k)) (orLookup (oo ++ an) k)) := by
  have hfst : (collectSchemaConstraints (.node t nb ml mx en mi req pr ao oo an)).1 =
      req ++ allOfReqs ao := by
    simp only [collectSchemaConstraints]
    exact collAllOf_fst ao _
  refine ⟨?_, ?_, ?_, ?_⟩
  · intro x hx
    rw [hfst]
    exact List.mem_append_left _ hx
  · intro s hs x hx
    rw [hfst]
    exact List.mem_append_right _ (mem_allOfReqs hs hx)
  · intro s hs k hk
    have h1 : allOfHasKey ao k = true := hasKey_allOf hs hk
    simp only [collectSchemaConstraints]
    rw [collOr_get, collOr_get, orOpt_isSome, orOpt_isSome, collAllOf_snd_isSome]
    simp [h1]
  · intro k
    simp only [collectSchemaConstraints]
    rw [collOr_get, collOr_get, collAllOf_snd_get, orLookup_append, ← orOpt_assoc]

/-- Witness for the amended C6 at a concrete schema: own required "a",
one allOf branch requiring "b" and declaring property "p". -/
theorem allOf_union_last_writer_wins_witness :
    "a" ∈ (collectSchemaConstraints (.node "" false 0 none [] 0 ["a"] [] [unionBranch] [] [])).1
    ∧ "b" ∈ (collectSchemaConstraints (.node "" false 0 none [] 0 ["a"] [] [unionBranch] [] [])).1
    ∧ (mapGet (collectSchemaConstraints
        (.node "" false 0 none [] 0 ["a"] [] [unionBranch] [] [])).2 "p").isSome = true := by
  obtain ⟨h1, h2, h3, _⟩ :=
    allOf_union_last_writer_wins "" false 0 none [] 0 ["a"] [] [unionBranch] [] []
  refine ⟨h1 "a" (by simp), h2 unionBranch (List.mem_singleton.mpr rfl) "b" ?_,
    h3 unionBranch (List.mem_singleton.mpr rfl) "p" ?_⟩
  · simp [unionBranch, nameSchema, collectSchemaConstraints, collAllOf, collOr, ownProps,
      allOfReqs, List.foldl, mapSet]
  · simp [unionBranch, nameSchema, collectSchemaConstraints, collAllOf, collOr, ownProps,
      List.foldl, mapSet, mapGet]

/-- C7 counterexample: the requirement list [[]] is non-empty and contains
the empty requirement, yet when the document declares no security-scheme
map (`openapiDoc`/Components/SecuritySchemes nil) the evaluator returns
false for every request — here one with no headers at all. -/
theorem empty_requirement_nil_schemes_counterexample :
    isAuthenticated none ⟨[], [], []⟩ [[]] = false := rfl

/-- C7 amended: whenever the document's security-scheme map is present
(non-nil, even if empty), a requirement list containing an empty
requirement is always satisfied, regardless of the request and of the
schemes declared. -/
theorem empty_requirement_always_satisfied
    (schemes : List (String × Option SecurityScheme)) (r : MockRequest)
    (reqs : List (List String)) (h : [] ∈ reqs) :
    isAuthenticated (some schemes) r reqs = true := by
  simp only [isAuthenticated]
  rw [List.any_eq_true]
  exact ⟨[], h, by simp⟩

/-- Witness for the amended C7: an apiKey scheme is declared, the request
has no credentials, and the requirement list contains an empty
alternative. -/
theorem empty_requirement_always_satisfied_witness :
    isAuthenticated (some [("k", some ⟨"apiKey", "", "header", "X-Key"⟩)]) ⟨[], [], []⟩
      [["k"], []] = true :=
  empty_requirement_always_satisfied _ _ _ (by simp)

/-- C8 counterexample: for the http/bearer scheme, the Authorization value
"BEARER token" is present and starts with "Bearer " case-insensitively,
yet the code rejects it — the code accepts only the two exact spellings
"Bearer " and "bearer ". -/
theorem bearer_case_insensitive_counterexample :
    schemeSatisfied ⟨[("Authorization", "BEARER token")], [], []⟩ ⟨"http", "bearer", "", ""⟩
        = false
    ∧ getHeader ⟨[("Authorization", "BEARER token")], [], []⟩ "Authorization" ≠ ""
    ∧ ciStarts (getHeader ⟨[("Authorization", "BEARER token")], [], []⟩ "Authorization")
        "Bearer " = true := by
  refine ⟨rfl, ?_, rfl⟩
  decide

/-- C8 amended: for an http scheme whose sub-kind folds to "bearer", a
request satisfies the scheme iff its Authorization header is non-empty and
its value starts with exactly "Bearer " or exactly "bearer " (only those
two spellings; other casings are rejected). -/
theorem bearer_requires_exact_prefix_casing (r : MockRequest) (s : SecurityScheme)
    (ht : s.stype = "http") (hb : eqFold s.sscheme "bearer" = true) :
    schemeSatisfied r s = true ↔
      getHeader r "Authorization" ≠ "" ∧
        (goStarts (getHeader r "Authorization") "Bearer " = true ∨
         goStarts (getHeader r "Authorization") "bearer " = true) := by
  by_cases h : getHeader r "Authorization" = ""
  · simp [schemeSatisfied, ht, hb, h]
  · simp [schemeSatisfied, ht, hb, h, Bool.or_eq_true]

/-- Witness for the amended C8: Authorization "Bearer x" satisfies the
bearer scheme. -/
theorem bearer_requires_exact_prefix_casing_witness :
    schemeSatisfied ⟨[("Authorization", "Bearer x")], [], []⟩ ⟨"http", "bearer", "", ""⟩
      = true :=
  (bearer_requires_exact_prefix_casing _ _ rfl (by decide)).mpr ⟨by decide, Or.inl (by decide)⟩

/-- C9: against the schema requiring exactly "name" and declaring it as a
string with minLength 3, the empty body yields exactly the one missing-
required violation, the body with "ab" yields exactly the one length
violation, and the body with "abc" yields no violations. -/
theorem body_validation_name_minlength :
    validateBody (.ok []) requireNameSchema =
        ["request.body Request body must have required property 'name'"]
    ∧ validateBody (.ok [("name", .gStr "ab")]) requireNameSchema =
        ["request.body Property \"name\" must be at least 3 characters"]
    ∧ validateBody (.ok [("name", .gStr "abc")]) requireNameSchema = [] := by
  refine ⟨?_, ?_, ?_⟩ <;>
    simp only [validateBody, requireNameSchema, nameSchema, collectSchemaConstraints, collAllOf,
      collOr, ownProps, mapSet, List.foldl, mapGet, checkType] <;>
    decide

/-- C1: the store round trip breaks. Creating the first record in an
empty resource stores it with id 1 (a Go int), but the call deadlocks in
Store.Save (store.mu is already held and Go mutexes are not reentrant)
instead of returning; and against the in-memory list that the create left
behind, both get-by-id(1) and delete(1) panic on the
`item["id"].(float64)` interface conversion because the stored id is an
int, not a float64. -/
theorem store_round_trip_breaks :
    handleMock "POST" "" [("color", GoVal.gStr "red")] [] =
        (.deadlocked, [[("color", GoVal.gStr "red"), ("id", GoVal.gInt 1)]])
    ∧ (handleMock "GET" "1" [] [[("color", GoVal.gStr "red"), ("id", GoVal.gInt 1)]]).1 =
        .panicked
    ∧ (handleMock "DELETE" "1" [] [[("color", GoVal.gStr "red"), ("id", GoVal.gInt 1)]]).1 =
        .panicked :=
  ⟨rfl, rfl, rfl⟩

/-- C2: no successful mutation ever completes the persistence write or
returns: the handler holds store.mu for the whole call, Store.Save locks
store.mu again, and a Go sync.Mutex is not reentrant, so every create
deadlocks, as does every update and delete that finds its record (shown
at a disk-loaded record, whose id is a float64). -/
theorem mutation_never_persists_nor_returns :
    (∀ (idParam : String) (body : Record) (list : List Record),
        (handleMock "POST" idParam body list).1 = .deadlocked)
    ∧ (handleMock "PUT" "1" [("color", GoVal.gStr "blue")] [[("id", GoVal.gFloat 1)]]).1 =
        .deadlocked
    ∧ (handleMock "DELETE" "1" [] [[("id", GoVal.gFloat 1)]]).1 = .deadlocked := by
  refine ⟨?_, rfl, rfl⟩
  intro idParam body list
  rfl

/-- C10: a GET on a get-by-identifier route whose id path parameter is
absent, not a syntactically valid integer, or parses to a non-positive
value falls into the collection branch: the whole record list with
status 200, never a 404. -/
theorem get_with_nonpositive_id_returns_collection (idParam : String) (body : Record)
    (list : List Record)
    (h : idParam = "" ∨ isGoIntString idParam = false ∨ goAtoi idParam ≤ 0) :
    handleMock "GET" idParam body list = (.jsonList 200 list, list) := by
  have hle : goAtoi idParam ≤ 0 := by
    rcases h with h | h | h
    · subst h; decide
    · simp [goAtoi, h]
    · exact h
  have hng : ¬goAtoi idParam > 0 := by omega
  simp [handleMock, hng]

/-- Witness for C10: a non-numeric id parameter on a non-empty list. -/
theorem get_with_nonpositive_id_returns_collection_witness :
    handleMock "GET" "abc" [] [[("id", GoVal.gFloat 1)]] =
      (.jsonList 200 [[("id", GoVal.gFloat 1)]], [[("id", GoVal.gFloat 1)]]) :=
  get_with_nonpositive_id_returns_collection "abc" [] _ (Or.inr (Or.inl (by decide)))

lemma goodState_nil : goodState [] := by
  simp [goodState, idsOf]

lemma goodState_head {r : Record} {rest : List Record} (h : goodState (r :: rest)) :
    mapGet r "id" = some (GoVal.gInt 1) := by
  simp only [goodState, idsOf, List.map_cons, List.length_cons, List.range_succ_eq_map,
    List.cons.injEq] at h
  simpa using h.1

lemma updateById_good {l : List Record} (h : goodState l) (id : Int) (body : Record) :
    updateById l id body = .updNotFound ∨ updateById l id body = .updPanic := by
  cases l with
  | nil => exact Or.inl rfl
  | cons r rest =>
    have hr := goodState_head h
    right
    simp [updateById, recordIdMatches, hr]

lemma deleteById_good {l : List Record} (h : goodState l) (id : Int) :
    deleteById l id = .delNotFound ∨ deleteById l id = .delPanic := by
  cases l with
  | nil => exact Or.inl rfl
  | cons r rest =>
    have hr := goodState_head h
    right
    simp [deleteById, recordIdMatches, hr]

lemma goodState_snoc {l : List Record} (h : goodState l) (b : Record) :
    goodState (l ++ [mapSet b "id" (GoVal.gInt (Int.ofNat (l.length + 1)))]) := by
  have hv : mapGet (mapSet b "id" (GoVal.gInt (Int.ofNat (l.length + 1)))) "id" =
      some (GoVal.gInt (Int.ofNat (l.length + 1))) := by
    rw [mapGet_mapSet]
    simp
  simp only [goodState, idsOf, List.map_append, List.length_append, List.map_cons,
    List.map_nil, List.length_cons, List.length_nil]
  rw [List.range_succ, List.map_append]
  simp only [goodState, idsOf] at h
  rw [h, hv]
  simp

lemma handleMock_snd_good (m i : String) (b : Record) (l : List Record) (h : goodState l) :
    goodState (handleMock m i b l).2 := by
  by_cases h1 : m = "GET"
  · subst h1
    simp only [handleMock, if_true]
    by_cases hid : goAtoi i > 0
    · rw [if_pos hid]
      cases hfind : findById l (goAtoi i) <;> simpa using h
    · rw [if_neg hid]
      simpa using h
  by_cases h2 : m = "POST"
  · subst h2
    simp only [handleMock, if_true]
    rw [if_neg (by decide : ¬("POST" : String) = "GET")]
    simpa [storeSaveTerminates] using goodState_snoc h b
  by_cases h3 : m = "PUT" ∨ m = "PATCH"
  · simp only [handleMock]
    rw [if_neg h1, if_neg h2, if_pos h3]
    rcases updateById_good h (goAtoi i) b with hu | hu <;> rw [hu] <;> simpa using h
  by_cases h4 : m = "DELETE"
  · simp only [handleMock]
    rw [if_neg h1, if_neg h2, if_neg h3, if_pos h4]
    rcases deleteById_good h (goAtoi i) with hd | hd <;> rw [hd] <;> simpa using h
  · simp only [handleMock]
    rw [if_neg h1, if_neg h2, if_neg h3, if_neg h4]
    simpa using h

lemma applyOps_good (ops : List MockOp) (l : List Record) (h : goodState l) :
    goodState (applyOps ops l) := by
  induction ops generalizing l with
  | nil => simpa [applyOps] using h
  | cons op rest ih =>
    simp only [applyOps]
    exact ih _ (handleMock_snd_good op.1 op.2.1 op.2.2 l h)

lemma goodState_nodup {l : List Record} (h : goodState l) : (idsOf l).Nodup := by
  rw [h]
  refine List.Nodup.map ?_ (List.nodup_range _)
  intro a b hab
  simp only [Option.some.injEq, GoVal.gInt.injEq, Int.ofNat.injEq] at hab
  omega

/-- C3: starting from an empty record list, after any sequence of handler
calls the id values in the resource's record list are pairwise distinct
(from the empty list every reachable state carries the ids 1..n in order:
creates append len+1, while every update or delete either misses or
panics on the int-id type assertion before mutating), and a create always
stores and returns the record whose id is the current record count plus
one. -/
theorem ids_pairwise_distinct_and_create_count_plus_one :
    (∀ ops : List MockOp, ((applyOps ops []).map (fun r => mapGet r "id")).Nodup)
    ∧ ∀ (idParam : String) (body : Record) (list : List Record),
        (handleMock "POST" idParam body list).2 =
            list ++ [mapSet body "id" (GoVal.gInt (Int.ofNat (list.length + 1)))]
          ∧ mapGet (mapSet body "id" (GoVal.gInt (Int.ofNat (list.length + 1)))) "id" =
            some (GoVal.gInt (Int.ofNat (list.length + 1))) := by
  constructor
  · intro ops
    have hn := goodState_nodup (applyOps_good ops [] goodState_nil)
    simpa [idsOf] using hn
  · intro idParam body list
    refine ⟨rfl, ?_⟩
    rw [mapGet_mapSet]
    simp

end MockServer
